/-
Verification of the retrieval core (rag_utils.py) and its call site in
app.py of the visa-main repository, as a shallow embedding in Lean 4.

Modelling conventions:
* numpy float vectors are modelled over ℚ (exact arithmetic); the squared
  L2 metric of faiss.IndexFlatL2 is `sqDist`.
* The filesystem state touched by rag_utils (the corpus JSON, the pickle
  cache, the faiss index file) is an explicit `FS` record threaded through
  the stateful functions.
* Python exceptions are `Except RagError`; a function that cannot raise
  returns a plain value.
* The SentenceTransformer model is an abstract `Model` capability; what
  the code hands to `model.encode` is made explicit by `EncodeInput`,
  distinguishing a list of plain strings from a list of structured query
  dicts (rag_utils.retrieve line 68 passes `[query]` where `query` is the
  structured dict built by app.py).
-/
import Mathlib

namespace Visa

/-- A document ("rule") of the corpus: required fields per the spec. -/
structure Doc where
  country : String
  category : String
  text : String
deriving DecidableEq, Repr, Inhabited

/-- The transient structured query object built by app.py
(`{"country": ..., "category": ..., "answers": {...}}`). -/
structure Query where
  country : String
  category : String
  answers : List (String × String)
deriving DecidableEq, Repr, Inhabited

/-- The shapes of argument the code can hand to `model.encode` when asking
for a batch: a list of plain text strings, or a list of structured query
objects (Python dicts). -/
inductive EncodeInput where
  | textList : List String → EncodeInput
  | queryList : List Query → EncodeInput
deriving DecidableEq, Repr

/-- The Python exceptions that can escape the rag_utils functions. -/
inductive RagError where
  /-- `FileNotFoundError` from `open(RULES_PATH)` -/
  | fileNotFound
  /-- `json.JSONDecodeError` from `json.load` -/
  | jsonDecode
  /-- any unpickling error from `pickle.load` on an existing cache file -/
  | cacheCorrupt
  /-- `ValueError` from `np.vstack([])` on an empty embeddings list -/
  | vstackEmpty
  /-- failure to construct `SentenceTransformer(EMBEDDING_MODEL_NAME)` -/
  | modelLoadFailed
  /-- a failure raised inside `model.encode` -/
  | encodeFailed
  /-- `AttributeError` from calling `.encode` on `None` -/
  | noneTypeAttr
deriving DecidableEq, Repr

/-- The embedding model handle: `encodeText` is `model.encode(text)` on a
single string (one vector); `encodeBatch` is `model.encode(lst)` on a list
(a matrix, one row per element). Both may raise. -/
structure Model where
  encodeText : String → Except RagError (List ℚ)
  encodeBatch : EncodeInput → Except RagError (List (List ℚ))

/-- The pickled cache payload: `{"embeddings": ..., "rules": ...}`,
written by `save_cache` (a two-key dict, hence always truthy in Python). -/
structure CacheEntry where
  embeddings : List (List ℚ)
  rules : List Doc
deriving DecidableEq, Repr

/-- State of the cache file on disk: absent, present but not
deserializable (truncated / half-written / garbage), or a good pickle. -/
inductive CacheFileState where
  | absent
  | corrupt
  | good : CacheEntry → CacheFileState
deriving DecidableEq, Repr

/-- State of the corpus JSON file on disk. -/
inductive CorpusFile where
  | absent
  | malformed
  | good : List Doc → CorpusFile
deriving DecidableEq, Repr

/-- A faiss `IndexFlatL2` after `add`: it stores the added vectors. -/
structure Index where
  vectors : List (List ℚ)
deriving DecidableEq, Repr

/-- `index.ntotal`: the number of stored vectors. -/
def Index.size (i : Index) : Nat := i.vectors.length

/-- The on-disk state rag_utils touches: RULES_PATH, EMBEDDINGS_CACHE,
FAISS_CACHE. -/
structure FS where
  rulesFile : CorpusFile
  cacheFile : CacheFileState
  indexFile : Option Index
deriving DecidableEq, Repr

/-- rag_utils.load_rules: `open(RULES_PATH)` then `json.load` — raises if
the file is missing or malformed, no handler inside rag_utils. -/
def load_rules (fs : FS) : Except RagError (List Doc) :=
  match fs.rulesFile with
  | .good rs => .ok rs
  | .absent => .error .fileNotFound
  | .malformed => .error .jsonDecode

/-- The embedding loop of build_embeddings: `for text in texts:
emb = model.encode(text); embeddings.append(emb)` — stops at the first
failing text. -/
def embedLoop (m : Model) : List String → Except RagError (List (List ℚ))
  | [] => .ok []
  | t :: ts =>
    match m.encodeText t with
    | .error e => .error e
    | .ok emb =>
      match embedLoop m ts with
      | .error e => .error e
      | .ok rest => .ok (emb :: rest)

/-- rag_utils.build_embeddings: embed each rule's `text` field in order,
then `np.vstack(embeddings)` (which raises on an empty list). -/
def build_embeddings (m : Model) (rules : List Doc) : Except RagError (List (List ℚ)) :=
  match embedLoop m (rules.map (fun r => r.text)) with
  | .error e => .error e
  | .ok embeddings =>
    if embeddings.isEmpty then .error .vstackEmpty else .ok embeddings

/-- `open(EMBEDDINGS_CACHE, "wb")`: opening in write mode truncates any
existing visible cache file before anything is written. -/
def saveCacheOpen (fs : FS) : FS :=
  { fs with cacheFile := .corrupt }

/-- `pickle.dump({"embeddings": embeddings, "rules": rules}, f)` running to
completion: the visible file now holds the new entry. -/
def saveCacheDump (entry : CacheEntry) (fs : FS) : FS :=
  { fs with cacheFile := .good entry }

/-- rag_utils.save_cache: open the visible cache file for writing (which
truncates it) and pickle the pairing directly into it. -/
def save_cache (embeddings : List (List ℚ)) (rules : List Doc) (fs : FS) : FS :=
  saveCacheDump ⟨embeddings, rules⟩ (saveCacheOpen fs)

/-- rag_utils.load_cache: `None` if the file does not exist, otherwise
`pickle.load` — which raises (unhandled) if the file is not a good pickle. -/
def load_cache (fs : FS) : Except RagError (Option CacheEntry) :=
  match fs.cacheFile with
  | .absent => .ok none
  | .corrupt => .error .cacheCorrupt
  | .good entry => .ok (some entry)

/-- rag_utils.build_faiss_index: build an `IndexFlatL2` over the matrix,
`index.add(embeddings)`, `faiss.write_index(index, FAISS_CACHE)`. -/
def build_faiss_index (embeddings : List (List ℚ)) (fs : FS) : Index × FS :=
  let index : Index := ⟨embeddings⟩
  (index, { fs with indexFile := some index })

/-- rag_utils.load_faiss_index: `None` if the file does not exist,
otherwise read the persisted index. -/
def load_faiss_index (fs : FS) : Option Index :=
  fs.indexFile

/-- Squared Euclidean (L2) distance, the metric of `faiss.IndexFlatL2`. -/
def sqDist (u v : List ℚ) : ℚ :=
  ((u.zip v).map (fun p => (p.1 - p.2) ^ 2)).sum

/-- The order in which exact L2 search ranks the stored vectors: ascending
distance, ties resolved by ascending position (one concrete order
compatible with faiss's ascending-distance contract). -/
def distLE (a b : ℚ × Nat) : Prop :=
  a.1 < b.1 ∨ (a.1 = b.1 ∧ a.2 ≤ b.2)

instance : DecidableRel distLE := fun a b => by
  unfold distLE; infer_instance

instance : IsTotal (ℚ × Nat) distLE :=
  ⟨fun a b => by
    unfold distLE
    rcases lt_trichotomy a.1 b.1 with h | h | h
    · exact Or.inl (Or.inl h)
    · rcases Nat.le_total a.2 b.2 with h2 | h2
      · exact Or.inl (Or.inr ⟨h, h2⟩)
      · exact Or.inr (Or.inr ⟨h.symm, h2⟩)
    · exact Or.inr (Or.inl h)⟩

instance : IsTrans (ℚ × Nat) distLE :=
  ⟨fun a b c hab hbc => by
    unfold distLE at *
    rcases hab with h1 | ⟨h1, h1'⟩ <;> rcases hbc with h2 | ⟨h2, h2'⟩
    · exact Or.inl (h1.trans h2)
    · exact Or.inl (h2 ▸ h1)
    · exact Or.inl (h1 ▸ h2)
    · exact Or.inr ⟨h1.trans h2, h1'.trans h2'⟩⟩

/-- The (distance, position) pairs of every stored vector against a query
vector, ranked ascending: the internal ordering of `IndexFlatL2.search`. -/
def rankedPairs (xs : List (List ℚ)) (qv : List ℚ) : List (ℚ × Nat) :=
  List.insertionSort distLE
    ((List.range xs.length).map (fun i => (sqDist qv (xs.getD i []), i)))

/-- `index.search(q, k)` for a single query vector: the positions of the
`k` nearest stored vectors in ascending-distance order; when `k` exceeds
the number of stored vectors, faiss pads the remaining slots with `-1`. -/
def faissSearch (idx : Index) (qv : List ℚ) (k : Nat) : List Int :=
  ((rankedPairs idx.vectors qv).take k).map (fun p => (p.2 : Int))
    ++ List.replicate (k - idx.vectors.length) (-1 : Int)

/-- The argument rag_utils.retrieve (line 68) hands to `model.encode`: the
structured query object itself, wrapped in a one-element list
(`model.encode([query])`) — not a formatted text string. -/
def retrieveEncodeArg (query : Query) : EncodeInput :=
  .queryList [query]

/-- Modelled from the spec: the Query Formatter of §4.6 is not present in
the source — per the spec's words it concatenates the structured fields of
a query (country, category, and the free-text answer values, excluding
internal bookkeeping fields such as the `_detail` entries) into a single
string suitable as embedding input. -/
def formatQuery (q : Query) : String :=
  q.country ++ " " ++ q.category ++ " "
    ++ String.intercalate " "
      ((q.answers.filter (fun p => ! p.1.endsWith "_detail")).map (fun p => p.2))

/-- The result loop of retrieve (lines 70–74): `results = []`, then for
each returned position, append `rules[idx]` when `0 <= idx < len(rules)`
and silently skip it otherwise. -/
def collectResults (rules : List Doc) : List Int → List Doc → List Doc
  | [], acc => acc
  | idx :: rest, acc =>
    if h : 0 ≤ idx ∧ idx < (rules.length : Int) then
      collectResults rules rest (acc ++ [rules.get ⟨idx.toNat, by omega⟩])
    else
      collectResults rules rest acc

/-- rag_utils.retrieve: guard on an empty collection or an absent index,
embed `[query]`, search the index, and map returned positions back to
documents. Calling it with `model = None` past the guard would raise
`AttributeError` on `.encode`, as in Python. -/
def retrieve (query : Query) (rules : List Doc) (index : Option Index)
    (model : Option Model) (top_k : Nat) : Except RagError (List Doc) :=
  if rules.isEmpty || index.isNone then .ok []
  else
    match index, model with
    | some idx, some m =>
      (match m.encodeBatch (retrieveEncodeArg query) with
       | .error e => .error e
       | .ok query_emb =>
         .ok (collectResults rules (faissSearch idx (query_emb.headD []) top_k) []))
    | _, none => .error .noneTypeAttr
    | none, _ => .ok []

/-- The tuple produced by a successful prepare_rag_store, together with
the filesystem state it leaves behind and a flag recording whether the
Embed branch (build_embeddings) was executed during the call. -/
structure PrepOutcome where
  rules : List Doc
  embeddings : List (List ℚ)
  index : Index
  model : Model
  fs : FS
  embedInvoked : Bool

/-- rag_utils.prepare_rag_store. `loadModel` stands for
`SentenceTransformer(EMBEDDING_MODEL_NAME)`, which may fail. The loaded
cache payload is a two-key dict, hence truthy, so Python's
`if cache and not force_rebuild` is a match on `some entry` with
`force_rebuild = false`. -/
def prepare_rag_store (loadModel : Except RagError Model) (force_rebuild : Bool)
    (fs : FS) : Except RagError PrepOutcome :=
  match loadModel with
  | .error e => .error e
  | .ok model =>
    match load_rules fs with
    | .error e => .error e
    | .ok rules =>
      match (if force_rebuild then Except.ok none else load_cache fs) with
      | .error e => .error e
      | .ok cache =>
        match cache, force_rebuild with
        | some entry, false =>
          (match load_faiss_index fs with
           | some index => .ok ⟨entry.rules, entry.embeddings, index, model, fs, false⟩
           | none =>
             let p := build_faiss_index entry.embeddings fs
             .ok ⟨entry.rules, entry.embeddings, p.1, model, p.2, false⟩)
        | _, _ =>
          match build_embeddings model rules with
          | .error e => .error e
          | .ok embeddings =>
            let fs1 := save_cache embeddings rules fs
            let p := build_faiss_index embeddings fs1
            .ok ⟨rules, embeddings, p.1, model, p.2, true⟩

/-- The module-level retrieval state app.py ends up with after startup. -/
structure AppState where
  rules : List Doc
  embeddings : Option (List (List ℚ))
  index : Option Index
  model : Option Model

/-- app.py startup (lines 24–41): load the corpus with `except
FileNotFoundError` (malformed JSON is NOT caught there and crashes the
process), then `try: prepare_rag_store() except Exception:` degrading to
`embeddings, index, model = None, None, None`; on success the RAG rules
replace the app rules when strictly more numerous. -/
def appInit (loadModel : Except RagError Model) (fs : FS) : Except RagError AppState :=
  match fs.rulesFile with
  | .malformed => .error .jsonDecode
  | f =>
    let rules0 := match f with
      | .good rs => rs
      | _ => []
    match prepare_rag_store loadModel false fs with
    | .ok r =>
      let rules := if rules0.length < r.rules.length then r.rules else rules0
      .ok ⟨rules, some r.embeddings, some r.index, some r.model⟩
    | .error _ => .ok ⟨rules0, none, none, none⟩

/-! Concrete fixtures used by counterexamples and witnesses. -/

/-- A concrete corpus document (the spec's §8 scenario, document 0). -/
def sampleDoc : Doc := ⟨"Canada", "student", "Proof of enrollment required."⟩

/-- A second concrete corpus document (the spec's §8 scenario, document 1). -/
def sampleDoc2 : Doc := ⟨"Canada", "tourist", "Return ticket required."⟩

/-- A concrete deterministic embedding model. -/
def sampleModel : Model :=
  ⟨fun _ => .ok [1], fun _ => .ok [[0]]⟩

/-- A concrete structured query as app.py builds it. -/
def sampleQuery : Query := ⟨"Canada", "student", []⟩

/-- A concrete cache entry pairing one embedding row with one document. -/
def sampleEntry : CacheEntry := ⟨[[1]], [sampleDoc]⟩

/-- A concrete filesystem state: corpus present, no cache, no index. -/
def sampleFS : FS := ⟨.good [sampleDoc], .absent, none⟩

/-- A concrete filesystem state whose cache file exists but cannot be
deserialized. -/
def corruptFS : FS := ⟨.good [sampleDoc], .corrupt, none⟩

/-- The outcome the store builder produces on a first run from `sampleFS`:
embeddings built, cache saved, index built and persisted. -/
def samplePrep : PrepOutcome :=
  ⟨[sampleDoc], [[1]], ⟨[[1]]⟩, sampleModel,
    ⟨.good [sampleDoc], .good ⟨[[1]], [sampleDoc]⟩, some ⟨[[1]]⟩⟩, true⟩

/-! ## Theorems -/

/-- **C1.** For every query, every model and every top_k, if the document
collection is empty or the index is absent (`None`), `retrieve` returns an
empty sequence and does not raise an error (it returns `.ok []`, never an
`.error`). -/
theorem retrieve_empty_or_absent_index (q : Query) (m : Option Model) (k : Nat) :
    (∀ index : Option Index, retrieve q [] index m k = .ok [])
    ∧ (∀ rules : List Doc, retrieve q rules none m k = .ok []) := by
  constructor
  · intro index
    simp [retrieve]
  · intro rules
    simp [retrieve]

/-- **C2, counterexample.** The claim that `retrieve` converts the
structured query into a single text string (the Query Formatter output)
and passes that string to the Embedding Provider is false: at the concrete
query `{country: Canada, category: student, answers: {}}`, the argument
handed to `model.encode` is the raw query object wrapped in a one-element
list, not the formatted string. -/
theorem retrieve_formats_query_cex :
    retrieveEncodeArg sampleQuery ≠ EncodeInput.textList [formatQuery sampleQuery] := by
  intro h
  exact EncodeInput.noConfusion h

/-- **C2, amended.** `retrieve` performs no query formatting: the argument
it passes to the Embedding Provider's encode is the structured query
object itself wrapped in a one-element list (`model.encode([query])`), and
it is never a list of text strings; past the guard, `retrieve`'s result is
exactly the encode of that raw-query argument fed to the index search. -/
theorem retrieve_passes_raw_query (q : Query) :
    retrieveEncodeArg q = EncodeInput.queryList [q]
    ∧ (∀ ts : List String, retrieveEncodeArg q ≠ EncodeInput.textList ts)
    ∧ (∀ (d : Doc) (rest : List Doc) (idx : Index) (m : Model) (k : Nat),
        retrieve q (d :: rest) (some idx) (some m) k =
          match m.encodeBatch (EncodeInput.queryList [q]) with
          | .error e => .error e
          | .ok E => .ok (collectResults (d :: rest) (faissSearch idx (E.headD []) k) [])) := by
  refine ⟨rfl, fun ts h => EncodeInput.noConfusion h, ?_⟩
  intro d rest idx m k
  simp only [retrieve, retrieveEncodeArg, List.isEmpty_cons, Option.isNone_some, Bool.or_self]
  rfl

/-- **C9, counterexample.** The claim that a save failing mid-write leaves
the previously visible cache file unchanged is false: `save_cache` opens
the visible cache file itself in write mode (truncating it) before
dumping, so at the concrete state holding a good prior entry, the state
reached mid-write no longer holds the prior cache file content. -/
theorem save_cache_atomic_cex :
    (saveCacheOpen ⟨.good [sampleDoc], .good sampleEntry, none⟩).cacheFile
      ≠ (⟨.good [sampleDoc], .good sampleEntry, none⟩ : FS).cacheFile := by
  decide

/-- **C9, amended.** `save_cache` persists the {embeddings, documents}
pairing by writing directly into the visible cache file, overwriting any
prior cache; a completed save is loadable, but there is no
write-to-temp-then-rename discipline: between opening the file and the
dump completing, the visible file is truncated/partial, so an interrupted
save destroys the previously visible cache (load then fails) instead of
leaving it unchanged. -/
theorem save_cache_overwrites_in_place (embeddings : List (List ℚ)) (rules : List Doc) (fs : FS) :
    (save_cache embeddings rules fs).cacheFile = .good ⟨embeddings, rules⟩
    ∧ load_cache (save_cache embeddings rules fs) = .ok (some ⟨embeddings, rules⟩)
    ∧ (saveCacheOpen fs).cacheFile = .corrupt
    ∧ load_cache (saveCacheOpen fs) = .error .cacheCorrupt := by
  exact ⟨rfl, rfl, rfl, rfl⟩

/-- **C10.** `prepare_rag_store` loads the corpus (load_rules) before the
cache check, so when the corpus file is missing it raises
`FileNotFoundError` and when it is malformed it raises `JSONDecodeError`,
in both cases regardless of the cache file's content (in particular even
when a valid cache entry exists), and the cached document snapshot is
never used as a fallback. -/
theorem prepare_requires_corpus (m : Model) (force : Bool) (fs : FS) :
    (fs.rulesFile = .absent →
      prepare_rag_store (.ok m) force fs = .error .fileNotFound)
    ∧ (fs.rulesFile = .malformed →
      prepare_rag_store (.ok m) force fs = .error .jsonDecode) := by
  constructor
  · intro h
    unfold prepare_rag_store load_rules
    rw [h]
  · intro h
    unfold prepare_rag_store load_rules
    rw [h]

/-- Witness for C10: at a concrete state whose corpus file is absent while
a valid cache entry exists on disk, `prepare_rag_store` raises. -/
theorem prepare_requires_corpus_witness :
    (⟨.absent, .good sampleEntry, none⟩ : FS).rulesFile = .absent
    ∧ prepare_rag_store (.ok sampleModel) false ⟨.absent, .good sampleEntry, none⟩
        = .error .fileNotFound :=
  ⟨rfl, (prepare_requires_corpus sampleModel false ⟨.absent, .good sampleEntry, none⟩).1 rfl⟩

/-- The embedding loop succeeds exactly when every text embeds, and then
the produced rows correspond to the texts pointwise, in order. -/
theorem embedLoop_ok_forall₂ (m : Model) :
    ∀ (ts : List String) (vs : List (List ℚ)),
      embedLoop m ts = .ok vs →
      List.Forall₂ (fun t v => m.encodeText t = .ok v) ts vs := by
  intro ts
  induction ts with
  | nil =>
    intro vs h
    simp only [embedLoop] at h
    injection h with h
    exact h ▸ List.Forall₂.nil
  | cons t ts ih =>
    intro vs h
    simp only [embedLoop] at h
    cases h1 : m.encodeText t with
    | error e =>
      rw [h1] at h
      simp at h
    | ok v =>
      rw [h1] at h
      cases h2 : embedLoop m ts with
      | error e =>
        rw [h2] at h
        simp at h
      | ok rest =>
        rw [h2] at h
        simp only at h
        injection h with h
        exact h ▸ List.Forall₂.cons h1 (ih rest h2)

/-- A successful build_embeddings pairs each document with the embedding
of its `text` field, in document order. -/
theorem build_embeddings_ok_forall₂ (m : Model) (rules : List Doc) (embs : List (List ℚ))
    (h : build_embeddings m rules = .ok embs) :
    List.Forall₂ (fun r v => m.encodeText r.text = .ok v) rules embs := by
  unfold build_embeddings at h
  cases hl : embedLoop m (rules.map (fun r => r.text)) with
  | error e =>
    rw [hl] at h
    simp at h
  | ok es =>
    rw [hl] at h
    by_cases he : es.isEmpty
    · simp [he] at h
    · simp only [he, if_false, Bool.false_eq_true] at h
      injection h with h
      subst h
      exact List.forall₂_map_left_iff.mp (embedLoop_ok_forall₂ m _ _ hl)

/-- **C4.** For every non-empty document collection, after a successful
embed step the embedding matrix has exactly one row per document (the
rows are the embeddings of the documents' texts, in the same order), and
the similarity index built from that matrix has size equal to the matrix
length, so `index.size = len(embeddings) = len(documents)`. -/
theorem embedding_matrix_and_index_size (m : Model) (rules : List Doc)
    (embs : List (List ℚ)) (fs : FS) (_hne : rules ≠ [])
    (h : build_embeddings m rules = .ok embs) :
    List.Forall₂ (fun r v => m.encodeText r.text = .ok v) rules embs
    ∧ embs.length = rules.length
    ∧ (build_faiss_index embs fs).1.size = embs.length
    ∧ (build_faiss_index embs fs).1.size = rules.length := by
  have hf := build_embeddings_ok_forall₂ m rules embs h
  have hlen := hf.length_eq
  exact ⟨hf, hlen.symm, rfl, by simp [build_faiss_index, Index.size, ← hlen]⟩

/-- Witness for C4 at a concrete one-document corpus. -/
theorem embedding_matrix_and_index_size_witness :
    ([sampleDoc] ≠ ([] : List Doc))
    ∧ build_embeddings sampleModel [sampleDoc] = .ok [[1]]
    ∧ (List.Forall₂ (fun r v => sampleModel.encodeText r.text = .ok v) [sampleDoc] [[1]]
        ∧ ([[1]] : List (List ℚ)).length = [sampleDoc].length
        ∧ (build_faiss_index [[1]] sampleFS).1.size = ([[1]] : List (List ℚ)).length
        ∧ (build_faiss_index [[1]] sampleFS).1.size = [sampleDoc].length) :=
  ⟨by simp, rfl,
    embedding_matrix_and_index_size sampleModel [sampleDoc] [[1]] sampleFS (by simp) rfl⟩

/-- The result loop, run from any accumulator, appends exactly the
in-range positional lookups. -/
theorem collectResults_go (rules : List Doc) :
    ∀ (positions : List Int) (acc : List Doc),
      collectResults rules positions acc =
        acc ++ positions.filterMap (fun idx =>
          if 0 ≤ idx ∧ idx < (rules.length : Int) then rules.get? idx.toNat else none) := by
  intro positions
  induction positions with
  | nil =>
    intro acc
    simp [collectResults]
  | cons idx rest ih =>
    intro acc
    by_cases h : 0 ≤ idx ∧ idx < (rules.length : Int)
    · have hlt : idx.toNat < rules.length := by omega
      rw [collectResults, dif_pos h, ih]
      simp [List.filterMap_cons, h, List.get?_eq_get hlt]
    · rw [collectResults, dif_neg h, ih]
      simp [List.filterMap_cons, h]

/-- **C6.** For every sequence of integer positions handed back by the
index search, the result loop of `retrieve` maps each position lying in
`[0, len(documents))` to the document at that position by direct
positional lookup, silently skips every out-of-range position, and never
raises: past the guard, a successful embed always yields `.ok` of exactly
these collected results, whatever positions the search produced. -/
theorem retrieve_position_lookup (rules : List Doc) (positions : List Int) :
    collectResults rules positions [] =
      positions.filterMap (fun idx =>
        if 0 ≤ idx ∧ idx < (rules.length : Int) then rules.get? idx.toNat else none)
    ∧ ∀ (q : Query) (d : Doc) (rest : List Doc) (idx : Index) (m : Model)
        (E : List (List ℚ)) (k : Nat),
        rules = d :: rest →
        m.encodeBatch (retrieveEncodeArg q) = .ok E →
        retrieve q rules (some idx) (some m) k =
          .ok (collectResults rules (faissSearch idx (E.headD []) k) []) := by
  constructor
  · simpa using collectResults_go rules positions []
  · intro q d rest idx m E k hr henc
    subst hr
    simp only [retrieve, List.isEmpty_cons, Option.isNone_some, Bool.or_self,
      Bool.false_eq_true, if_false, henc]

/-- Witness for C6: a concrete search output containing one in-range, one
too-large and one negative position. -/
theorem retrieve_position_lookup_witness :
    collectResults [sampleDoc, sampleDoc2] [0, 5, -1] [] =
      [0, 5, -1].filterMap (fun idx =>
        if 0 ≤ idx ∧ idx < (([sampleDoc, sampleDoc2] : List Doc).length : Int)
        then [sampleDoc, sampleDoc2].get? idx.toNat else none)
    ∧ ([sampleDoc, sampleDoc2] : List Doc) = sampleDoc :: [sampleDoc2]
    ∧ sampleModel.encodeBatch (retrieveEncodeArg sampleQuery) = .ok [[0]]
    ∧ retrieve sampleQuery [sampleDoc, sampleDoc2] (some ⟨[[0], [1]]⟩) (some sampleModel) 3 =
        .ok (collectResults [sampleDoc, sampleDoc2]
          (faissSearch ⟨[[0], [1]]⟩ (([[0]] : List (List ℚ)).headD []) 3) []) :=
  ⟨(retrieve_position_lookup [sampleDoc, sampleDoc2] [0, 5, -1]).1, rfl, rfl,
    (retrieve_position_lookup [sampleDoc, sampleDoc2] [0, 5, -1]).2 sampleQuery sampleDoc
      [sampleDoc2] ⟨[[0], [1]]⟩ sampleModel [[0]] 3 rfl rfl⟩

/-- Anatomy of every successful `prepare_rag_store` call: the model load
succeeded with the returned handle, the corpus file was present and
parsed, the corpus file is left untouched, and the cache file afterwards
holds exactly the returned {embeddings, documents} pairing. -/
theorem load_rules_ok (fs : FS) (rs : List Doc) (h : load_rules fs = .ok rs) :
    fs.rulesFile = .good rs := by
  unfold load_rules at h
  cases hc : fs.rulesFile <;> rw [hc] at h <;> simp_all

/-- A cache load that returned an entry found a good cache file holding
exactly that entry. -/
theorem load_cache_ok_some (fs : FS) (entry : CacheEntry)
    (h : load_cache fs = .ok (some entry)) : fs.cacheFile = .good entry := by
  unfold load_cache at h
  cases hc : fs.cacheFile <;> rw [hc] at h <;> simp_all

theorem prepare_ok_spec (loadModel : Except RagError Model) (force : Bool) (fs : FS)
    (r : PrepOutcome) (h : prepare_rag_store loadModel force fs = .ok r) :
    loadModel = .ok r.model
    ∧ (∃ rs : List Doc, fs.rulesFile = .good rs)
    ∧ r.fs.rulesFile = fs.rulesFile
    ∧ r.fs.cacheFile = .good ⟨r.embeddings, r.rules⟩ := by
  unfold prepare_rag_store at h
  split at h
  · simp at h
  rename_i model
  split at h
  · simp at h
  rename_i rules hrules
  split at h
  · simp at h
  rename_i cache hcache
  have hrf := load_rules_ok fs rules hrules
  split at h
  · -- cache hit branch: cache = some entry, force = false
    rename_i entry
    have hcf : fs.cacheFile = .good entry := by
      apply load_cache_ok_some fs entry
      simpa using hcache
    split at h
    · injection h with h2
      subst h2
      exact ⟨rfl, ⟨rules, hrf⟩, rfl, hcf⟩
    · injection h with h2
      subst h2
      exact ⟨rfl, ⟨rules, hrf⟩, rfl, hcf⟩
  · -- miss branch: go through build_embeddings, save_cache, build index
    split at h
    · simp at h
    rename_i embs hembs
    injection h with h2
    subst h2
    exact ⟨rfl, ⟨rules, hrf⟩, rfl, rfl⟩

/-- A cache hit: with the corpus readable and a good cache entry on disk,
`prepare_rag_store` without force_rebuild succeeds without entering the
Embed branch and returns the cached documents and embeddings. -/
theorem prepare_cache_hit (m : Model) (fs : FS) (rs : List Doc) (entry : CacheEntry)
    (hr : fs.rulesFile = .good rs) (hcf : fs.cacheFile = .good entry) :
    ∃ r : PrepOutcome, prepare_rag_store (.ok m) false fs = .ok r
      ∧ r.embedInvoked = false ∧ r.rules = entry.rules ∧ r.embeddings = entry.embeddings := by
  cases hi : fs.indexFile with
  | some index =>
    refine ⟨⟨entry.rules, entry.embeddings, index, m, fs, false⟩, ?_, rfl, rfl, rfl⟩
    unfold prepare_rag_store load_rules load_cache load_faiss_index
    rw [hr, hcf, hi]
    rfl
  | none =>
    refine ⟨⟨entry.rules, entry.embeddings, ⟨entry.embeddings⟩, m,
      { fs with indexFile := some ⟨entry.embeddings⟩ }, false⟩, ?_, rfl, rfl, rfl⟩
    unfold prepare_rag_store load_rules load_cache load_faiss_index build_faiss_index
    rw [hr, hcf, hi]
    rfl

/-- **C3.** If `prepare_rag_store` succeeded once (writing or keeping a
cache entry), then calling it a second time with `force_rebuild = false`
on the filesystem state the first call left behind (same corpus on disk,
cache entry still present) takes the cache-hit branch: it succeeds, does
not invoke `build_embeddings`, and returns the same documents and
embeddings as the first call. -/
theorem prepare_second_call_cache_hit (loadModel : Except RagError Model) (f1 : Bool)
    (fs0 : FS) (r1 : PrepOutcome)
    (h1 : prepare_rag_store loadModel f1 fs0 = .ok r1) :
    ∃ r2 : PrepOutcome, prepare_rag_store loadModel false r1.fs = .ok r2
      ∧ r2.embedInvoked = false
      ∧ r2.rules = r1.rules
      ∧ r2.embeddings = r1.embeddings := by
  obtain ⟨hm, ⟨rs, hrs⟩, hrf, hcf⟩ := prepare_ok_spec loadModel f1 fs0 r1 h1
  rw [hm]
  exact prepare_cache_hit r1.model r1.fs rs ⟨r1.embeddings, r1.rules⟩
    (hrf.trans hrs) hcf

/-- Witness for C3: a concrete first run from a cache-less state, followed
by a second run on the state it left behind. -/
theorem prepare_second_call_cache_hit_witness :
    prepare_rag_store (.ok sampleModel) false sampleFS = .ok samplePrep
    ∧ ∃ r2 : PrepOutcome, prepare_rag_store (.ok sampleModel) false samplePrep.fs = .ok r2
      ∧ r2.embedInvoked = false
      ∧ r2.rules = samplePrep.rules
      ∧ r2.embeddings = samplePrep.embeddings :=
  ⟨rfl, prepare_second_call_cache_hit (.ok sampleModel) false sampleFS samplePrep rfl⟩

/-- **C7, counterexample.** At a concrete state whose cache file exists
but cannot be deserialized (corpus present and well-formed), the claim
that `prepare_rag_store` treats the failure as a cache miss and rebuilds
is false: `prepare_rag_store` propagates the deserialization error. -/
theorem prepare_corrupt_cache_cex :
    prepare_rag_store (.ok sampleModel) false corruptFS = .error .cacheCorrupt := rfl

/-- **C7, amended.** Cache load returns nothing when no cache file exists;
when the cache file exists but cannot be deserialized, `load_cache` raises
and `prepare_rag_store` propagates that error instead of rebuilding — the
app-level caller then catches it and degrades to retrieval-unavailable
(no index, no model, app rules kept). -/
theorem load_cache_corrupt_propagates (fs : FS) (rs : List Doc) (m : Model)
    (hr : fs.rulesFile = .good rs) :
    (fs.cacheFile = .absent → load_cache fs = .ok none)
    ∧ (fs.cacheFile = .corrupt →
        load_cache fs = .error .cacheCorrupt
        ∧ prepare_rag_store (.ok m) false fs = .error .cacheCorrupt
        ∧ appInit (.ok m) fs = .ok ⟨rs, none, none, none⟩) := by
  constructor
  · intro h
    unfold load_cache
    rw [h]
  · intro h
    have hl : load_cache fs = .error .cacheCorrupt := by
      unfold load_cache
      rw [h]
    have hp : prepare_rag_store (.ok m) false fs = .error .cacheCorrupt := by
      unfold prepare_rag_store load_rules load_cache
      rw [hr, h]
      rfl
    refine ⟨hl, hp, ?_⟩
    unfold appInit
    rw [hr, hp]

/-- Witness for C7's amended claim at the concrete corrupt-cache state. -/
theorem load_cache_corrupt_propagates_witness :
    corruptFS.rulesFile = .good [sampleDoc]
    ∧ (load_cache corruptFS = .error .cacheCorrupt
       ∧ prepare_rag_store (.ok sampleModel) false corruptFS = .error .cacheCorrupt
       ∧ appInit (.ok sampleModel) corruptFS = .ok ⟨[sampleDoc], none, none, none⟩) :=
  ⟨rfl, (load_cache_corrupt_propagates corruptFS [sampleDoc] sampleModel rfl).2 rfl⟩

/-- **C8.** Every failure of store preparation reached from app startup
(model load failure, missing corpus, corrupt cache, embedding failure —
any error `prepare_rag_store` can return) is caught at the caller
boundary: app startup still succeeds, ends in the retrieval-unavailable
state (no index, no model), and `retrieve` then serves empty results for
every query; no such failure propagates as a fatal error. (The corpus
being malformed JSON crashes app startup at its own corpus load, before
store preparation is reached, so it is excluded.) -/
theorem prepare_failure_degrades (loadModel : Except RagError Model) (fs : FS)
    (e : RagError) (hnm : fs.rulesFile ≠ .malformed)
    (hf : prepare_rag_store loadModel false fs = .error e) :
    ∃ st : AppState, appInit loadModel fs = .ok st
      ∧ st.index = none ∧ st.model = none
      ∧ ∀ (q : Query) (k : Nat), retrieve q st.rules st.index st.model k = .ok [] := by
  cases hc : fs.rulesFile with
  | malformed => exact absurd hc hnm
  | absent =>
    refine ⟨⟨[], none, none, none⟩, ?_, rfl, rfl, ?_⟩
    · unfold appInit
      rw [hc, hf]
    · intro q k
      simp [retrieve]
  | good rs =>
    refine ⟨⟨rs, none, none, none⟩, ?_, rfl, rfl, ?_⟩
    · unfold appInit
      rw [hc, hf]
    · intro q k
      simp [retrieve]

/-- Witness for C8: the embedding model fails to load, app startup still
comes up serving empty retrieval results. -/
theorem prepare_failure_degrades_witness :
    (sampleFS.rulesFile ≠ .malformed
      ∧ prepare_rag_store (.error .modelLoadFailed) false sampleFS = .error .modelLoadFailed)
    ∧ ∃ st : AppState, appInit (.error .modelLoadFailed) sampleFS = .ok st
      ∧ st.index = none ∧ st.model = none
      ∧ ∀ (q : Query) (k : Nat), retrieve q st.rules st.index st.model k = .ok [] :=
  ⟨⟨by decide, rfl⟩,
    prepare_failure_degrades (.error .modelLoadFailed) sampleFS .modelLoadFailed
      (by decide) rfl⟩

/-- The ranked pair list has one entry per stored vector. -/
theorem rankedPairs_length (xs : List (List ℚ)) (qv : List ℚ) :
    (rankedPairs xs qv).length = xs.length := by
  unfold rankedPairs
  rw [(List.perm_insertionSort distLE _).length_eq]
  simp

/-- Every ranked pair is an in-range position labelled with the squared L2
distance of the stored vector at that position to the query vector. -/
theorem rankedPairs_mem (xs : List (List ℚ)) (qv : List ℚ) (p : ℚ × Nat)
    (hp : p ∈ rankedPairs xs qv) :
    p.2 < xs.length ∧ p.1 = sqDist qv (xs.getD p.2 []) := by
  unfold rankedPairs at hp
  rw [List.mem_insertionSort] at hp
  simp only [List.mem_map, List.mem_range] at hp
  obtain ⟨i, hi, hpi⟩ := hp
  cases hpi
  exact ⟨hi, rfl⟩

/-- The ranked pair list is sorted in the search order. -/
theorem rankedPairs_sorted (xs : List (List ℚ)) (qv : List ℚ) :
    List.Sorted distLE (rankedPairs xs qv) :=
  List.sorted_insertionSort distLE _

/-- The distances along the ranked pair list are ascending. -/
theorem rankedPairs_fst_sorted (xs : List (List ℚ)) (qv : List ℚ) :
    List.Sorted (fun a b : ℚ => a ≤ b) ((rankedPairs xs qv).map Prod.fst) := by
  have hs : List.Pairwise distLE (rankedPairs xs qv) := rankedPairs_sorted xs qv
  have : List.Pairwise (fun a b : ℚ × Nat => a.1 ≤ b.1) (rankedPairs xs qv) := by
    refine hs.imp ?_
    intro a b hab
    rcases hab with h | ⟨h, _⟩
    · exact le_of_lt h
    · exact le_of_eq h
  exact (List.pairwise_map).mpr this

/-- The positions along the ranked pair list are a permutation of all
stored positions: every document's vector is ranked exactly once. -/
theorem rankedPairs_snd_perm (xs : List (List ℚ)) (qv : List ℚ) :
    ((rankedPairs xs qv).map Prod.snd).Perm (List.range xs.length) := by
  have h1 : ((rankedPairs xs qv).map Prod.snd).Perm
      ((List.map (fun i => (sqDist qv (xs.getD i []), i)) (List.range xs.length)).map
        Prod.snd) :=
    (List.perm_insertionSort distLE _).map Prod.snd
  have h2 : (List.map (fun i => (sqDist qv (xs.getD i []), i)) (List.range xs.length)).map
      Prod.snd = List.range xs.length := by
    rw [List.map_map]
    exact List.map_id _
  exact h2 ▸ h1

/-- A filterMap that succeeds everywhere is a map. -/
theorem filterMap_eq_map_of_forall {α β : Type} (f : α → Option β) (g : α → β)
    (l : List α) (h : ∀ a ∈ l, f a = some (g a)) : l.filterMap f = l.map g := by
  induction l with
  | nil => rfl
  | cons a l ih =>
    rw [List.filterMap_cons, h a (by simp), List.map_cons,
      ih (fun a ha => h a (by simp [ha]))]

/-- The sentinel `-1` padding positions are all skipped by the result
loop's range filter. -/
theorem filterMap_sentinel (rules : List Doc) (n : Nat) :
    (List.replicate n (-1 : Int)).filterMap (fun idx =>
      if 0 ≤ idx ∧ idx < (rules.length : Int) then rules.get? idx.toNat else none) = [] := by
  induction n with
  | zero => rfl
  | succ n ih =>
    rw [List.replicate_succ, List.filterMap_cons]
    simp only [ih]
    norm_num

/-- An in-range lookup with `get?` returns the `getD` value. -/
theorem get?_eq_some_getD (l : List Doc) (n : Nat) (h : n < l.length) :
    l.get? n = some (l.getD n default) := by
  rw [List.get?_eq_get h, List.getD_eq_getElem?_getD, List.getElem?_eq_getElem h]
  rfl

/-- **C5.** For every non-empty document collection of size N with an
index of matching size N, calling `retrieve` with `top_k` greater than N
returns exactly the N documents, each exactly once (the ranked positions
are a permutation of all N positions — no sentinel or padding entries),
ordered by ascending squared L2 distance of their embedding rows to the
query embedding. -/
theorem retrieve_topk_exceeding (q : Query) (rules : List Doc) (xs : List (List ℚ))
    (m : Model) (E : List (List ℚ)) (k : Nat)
    (hne : rules ≠ []) (hlen : xs.length = rules.length) (hk : rules.length < k)
    (henc : m.encodeBatch (retrieveEncodeArg q) = .ok E) :
    retrieve q rules (some ⟨xs⟩) (some m) k =
      .ok ((rankedPairs xs (E.headD [])).map (fun p => rules.getD p.2 default))
    ∧ ((rankedPairs xs (E.headD [])).map (fun p => rules.getD p.2 default)).length
        = rules.length
    ∧ List.Sorted (fun a b : ℚ => a ≤ b) ((rankedPairs xs (E.headD [])).map Prod.fst)
    ∧ (∀ p ∈ rankedPairs xs (E.headD []),
        p.1 = sqDist (E.headD []) (xs.getD p.2 []))
    ∧ ((rankedPairs xs (E.headD [])).map Prod.snd).Perm (List.range rules.length) := by
  obtain ⟨d, rest, hdr⟩ : ∃ d rest, rules = d :: rest := by
    cases rules with
    | nil => exact absurd rfl hne
    | cons d rest => exact ⟨d, rest, rfl⟩
  subst hdr
  refine ⟨?_, ?_, rankedPairs_fst_sorted xs (E.headD []), ?_, ?_⟩
  · simp only [retrieve, List.isEmpty_cons, Option.isNone_some, Bool.or_self,
      Bool.false_eq_true, if_false, henc]
    congr 1
    have htake : (rankedPairs xs (E.headD [])).take k = rankedPairs xs (E.headD []) :=
      List.take_of_length_le (by rw [rankedPairs_length]; omega)
    unfold faissSearch
    rw [htake, collectResults_go, List.nil_append, List.filterMap_append,
      filterMap_sentinel, List.append_nil, List.filterMap_map]
    apply filterMap_eq_map_of_forall
    intro p hp
    have hmem := rankedPairs_mem xs (E.headD []) p hp
    simp only [Function.comp_apply]
    have hin : (0 : Int) ≤ (p.2 : Int) ∧ (p.2 : Int) < (((d :: rest).length : Nat) : Int) := by
      constructor
      · exact Int.ofNat_nonneg _
      · omega
    rw [if_pos hin, Int.toNat_natCast]
    exact get?_eq_some_getD (d :: rest) p.2 (by omega)
  · rw [List.length_map, rankedPairs_length, hlen]
  · intro p hp
    exact (rankedPairs_mem xs (E.headD []) p hp).2
  · rw [← hlen]
    exact rankedPairs_snd_perm xs (E.headD [])

/-- Witness for C5 at the spec's §8 two-document scenario with top_k = 3. -/
theorem retrieve_topk_exceeding_witness :
    (([sampleDoc, sampleDoc2] : List Doc) ≠ []
      ∧ ([[0], [1]] : List (List ℚ)).length = ([sampleDoc, sampleDoc2] : List Doc).length
      ∧ ([sampleDoc, sampleDoc2] : List Doc).length < 3
      ∧ sampleModel.encodeBatch (retrieveEncodeArg sampleQuery) = .ok [[0]])
    ∧ (retrieve sampleQuery [sampleDoc, sampleDoc2] (some ⟨[[0], [1]]⟩) (some sampleModel) 3 =
        .ok ((rankedPairs [[0], [1]] (([[0]] : List (List ℚ)).headD [])).map
          (fun p => [sampleDoc, sampleDoc2].getD p.2 default))
      ∧ ((rankedPairs [[0], [1]] (([[0]] : List (List ℚ)).headD [])).map
          (fun p => [sampleDoc, sampleDoc2].getD p.2 default)).length
            = ([sampleDoc, sampleDoc2] : List Doc).length
      ∧ List.Sorted (fun a b : ℚ => a ≤ b)
          ((rankedPairs [[0], [1]] (([[0]] : List (List ℚ)).headD [])).map Prod.fst)
      ∧ (∀ p ∈ rankedPairs [[0], [1]] (([[0]] : List (List ℚ)).headD []),
          p.1 = sqDist (([[0]] : List (List ℚ)).headD []) (([[0], [1]] : List (List ℚ)).getD p.2 []))
      ∧ ((rankedPairs [[0], [1]] (([[0]] : List (List ℚ)).headD [])).map Prod.snd).Perm
          (List.range ([sampleDoc, sampleDoc2] : List Doc).length)) :=
  ⟨⟨by simp, rfl, by decide, rfl⟩,
    retrieve_topk_exceeding sampleQuery [sampleDoc, sampleDoc2] [[0], [1]] sampleModel
      [[0]] 3 (by simp) rfl (by decide) rfl⟩

end Visa
